import Mathlib

/-!
# Thunder: path resolution and command execution

A shallow embedding of `commands.go`, `thunder.go` and `modes.go` of the
Thunder shell for BoltDB, and theorems about it.

Conventions of the embedding:

* A Go `string` (and the `[]byte` of a stored value) is a Lean `String`, that
  is a list of Unicode characters; strings that are not valid UTF-8 are out of
  the model.  `'/'` is one byte in UTF-8 and never part of a longer sequence,
  so splitting and slicing at a `'/'` agree on bytes and on characters.
* A Go value of interface type `Bucket` is an `Option β`: `none` is the `nil`
  interface, `some b` a bucket handle `b`.
* A Go `error` is an `Option Error`: `none` is `nil`.
* The store behind the buckets is an explicit state `σ`.
* Every call of a `Bucket` method made by the code is recorded, in order, in
  a list of `Call`s, so that statements of the form "no `Put` is performed"
  can be made about the code itself.
* A run-time panic (index out of range, method call on a `nil` interface)
  is the outcome `Except.error (Abort.panic _)`.
-/

namespace Thunder

/-! ## Data model -/

/-- Go `error` values, identified by their message. -/
abbrev Error := String

/-- Reasons for which a command does not return normally. -/
inductive Abort where
  | panic (msg : String)
  | outOfFuel
  deriving DecidableEq, Repr

/-- The panic of indexing a slice outside its bounds. -/
def indexOutOfRange : Abort := Abort.panic "index out of range"

/-- The panic of calling a method on the `nil` interface value. -/
def nilDereference : Abort := Abort.panic "nil pointer dereference"

/-- One call of a method of the `Bucket` interface, with its receiver and
arguments. -/
inductive Call (β : Type) where
  | cd (b : β) (name : String)
  | prev (b : β)
  | list (b : β)
  | get (b : β) (key : String)
  | put (b : β) (key value : String)
  | mkdir (b : β) (name : String)
  | rm (b : β) (name : String)
  | string (b : β)
  deriving DecidableEq, Repr

/-- Calls that only read: `Cd` and `Prev`, the two methods `travel` uses. -/
def Call.isNavigation {β : Type} : Call β → Bool
  | Call.cd _ _ => true
  | Call.prev _ => true
  | _ => false

/-- Calls of `Put`. -/
def Call.isPut {β : Type} : Call β → Bool
  | Call.put _ _ _ => true
  | _ => false

/-- Calls of `Cd`. -/
def Call.isCd {β : Type} : Call β → Bool
  | Call.cd _ _ => true
  | _ => false

/-- Modelled from the spec: the `Bucket` interface (spec §4.1), whose Go
declaration and bolt-backed implementation are not part of the sources at
hand.  `σ` is the state of the store, `β` the type of bucket handles.  The
queries `Cd`, `Prev`, `Get`, `Buckets`, `List`, `String` read the store; the
updates `Put`, `Mkdir`, `Rm` return the new store with their `error`.
`Cd` returns the Go pair `(Bucket, error)` as it is, since `travel` keeps the
bucket of a failing `Cd`; every caller of `Get` drops the bytes when the error
is not `nil`, so `Get` is an `Except`. -/
structure Bucket (σ β : Type) where
  Cd : σ → β → String → Option β × Option Error
  Prev : σ → β → Option β
  Get : σ → β → String → Except Error String
  Put : σ → β → String → String → σ × Option Error
  Mkdir : σ → β → String → σ × Option Error
  Rm : σ → β → String → σ × Option Error
  Buckets : σ → β → Bool → List String
  List : σ → β → List String
  String : σ → β → String

/-- The two functions of `github.com/evanphx/json-patch` and the one of
`github.com/dustin/go-jsonpointer` the commands call; external libraries,
taken as parameters.  `π` is the type of decoded patches. -/
structure JsonLib (π : Type) where
  Find : String → String → Except Error String
  DecodePatch : String → Except Error π
  Apply : π → String → Except Error String

/-- The constant `Batch` of `modes.go`. -/
@[reducible] def Batch : String := "batch"

/-- The constant `Interactive` of `modes.go`. -/
@[reducible] def Interactive : String := "interactive"

/-- The session: the globals `cwd` and `fname` of `thunder.go`, the store the
buckets view, the shell's `mode` value and prompt, the text written through
the `ishell` context, the error last handed to `c.Err`, and the record of
`Bucket` method calls. -/
structure Session (σ β : Type) where
  store : σ
  cwd : Option β
  fname : String
  mode : Option String
  prompt : String
  out : List String
  err : Option Error
  calls : List (Call β)

/-! ## Go library functions on strings -/

/-- Go `strings.Split(s, "/")`: the substrings between the separators; always
at least one element. -/
def stringsSplit (s : String) : List String :=
  (s.data.splitOn '/').map String.mk

/-- Go `strings.Join(elems, sep)`. -/
def stringsJoin : List String → String → String
  | [], _ => ""
  | [a], _ => a
  | a :: b :: rest, sep => a ++ sep ++ stringsJoin (b :: rest) sep

/-- Scan for the last occurrence of `c`: `i` is the index of the head of the
list, `found` the last index seen so far. -/
def lastIndexAux (c : Char) : List Char → Nat → Int → Int
  | [], _, found => found
  | x :: xs, i, found => lastIndexAux c xs (i + 1) (if x = c then (i : Int) else found)

/-- Go `strings.LastIndex(s, "/")`: the index of the last `'/'`, or `-1`. -/
def stringsLastIndex (s : String) : Int :=
  lastIndexAux '/' s.data 0 (-1)

/-- Go `s[:i]`. -/
def sliceTo (s : String) (i : Nat) : String := String.mk (s.data.take i)

/-- Go `s[i:]`. -/
def sliceFrom (s : String) (i : Nat) : String := String.mk (s.data.drop i)

/-- Go `args[i]` on a slice: panics outside the bounds. -/
def index (args : List String) (i : Nat) : Except Abort String :=
  match args.get? i with
  | some a => Except.ok a
  | none => Except.error indexOutOfRange

/-! ## `travel` and `parseKeyPath` (commands.go) -/

/-- What `travel` returns, with the `Bucket` calls it made. -/
structure TravelResult (β : Type) where
  bucket : Option β
  err : Option Error
  calls : List (Call β)
  deriving DecidableEq, Repr

/-- The loop of `travel` over the parts still to visit.  It runs while
`err == nil && cwd != nil` and parts remain. -/
def travelLoop {σ β : Type} (api : Bucket σ β) (st : σ) :
    List String → Option β → Option Error → List (Call β) → TravelResult β
  | [], cwd, err, calls => ⟨cwd, err, calls⟩
  | part :: rest, cwd, err, calls =>
    match err, cwd with
    | none, some b =>
      if part = "" then
        travelLoop api st rest (some b) none calls
      else if part = ".." then
        match api.Prev st b with
        | some p => travelLoop api st rest (some p) none (calls ++ [Call.prev b, Call.prev b])
        | none => travelLoop api st rest (some b) none (calls ++ [Call.prev b])
      else if part ≠ "." then
        travelLoop api st rest (api.Cd st b part).1 (api.Cd st b part).2
          (calls ++ [Call.cd b part])
      else
        travelLoop api st rest (some b) none calls
    | _, _ => ⟨cwd, err, calls⟩

/-- The function `travel(cwd, path)` of commands.go. -/
def travel {σ β : Type} (api : Bucket σ β) (st : σ) (cwd : Option β) (path : String) :
    TravelResult β :=
  travelLoop api st (stringsSplit path) cwd none []

/-- What `parseKeyPath` returns, with the `Bucket` calls it made. -/
structure KeyPathResult (β : Type) where
  bucket : Option β
  key : String
  err : Option Error
  calls : List (Call β)
  deriving DecidableEq, Repr

/-- The function `parseKeyPath(cwd, path)` of commands.go. -/
def parseKeyPath {σ β : Type} (api : Bucket σ β) (st : σ) (cwd : Option β) (path : String) :
    KeyPathResult β :=
  let slashIndex := stringsLastIndex path
  if slashIndex < 0 then
    ⟨cwd, path, none, []⟩
  else
    let key := sliceFrom path (slashIndex + 1).toNat
    let r := travel api st cwd (sliceTo path slashIndex.toNat)
    ⟨r.bucket, key, r.err, r.calls⟩

/-! ## `isPrintable` and `printableList` (thunder.go) -/

/-- The loop of `isPrintable` over the runes of the string: the first rune
that is not graphic ends it with `false`. -/
def isPrintableRunes (isGraphic : Char → Bool) : List Char → Bool
  | [] => true
  | r :: rest => if !isGraphic r then false else isPrintableRunes isGraphic rest

/-- The function `isPrintable(s)` of thunder.go; `isGraphic` stands for Go
`unicode.IsGraphic`, a table of the Go library. -/
def isPrintable (isGraphic : Char → Bool) (s : String) : Bool :=
  isPrintableRunes isGraphic s.data

/-- The function `printableList(s)` of thunder.go: starting from the empty
slice, each printable element is appended in turn. -/
def printableList (isGraphic : Char → Bool) (s : List String) : List String :=
  s.foldl (fun r v => if isPrintable isGraphic v then r ++ [v] else r) []

/-! ## The commands (commands.go) -/

/-- The context of a command is new (`ishell` builds one per command): no
error has been handed to `c.Err` yet. -/
def newContext {σ β : Type} (w : Session σ β) : Session σ β :=
  { w with err := none }

/-- The output of `c.Println(s)`. -/
def println (s : String) : String := s ++ "\n"

/-- The loop `for _, entry := range entries { c.Println(entry) }`. -/
def printEntries (out : List String) (entries : List String) : List String :=
  entries.foldl (fun o entry => o ++ [println entry]) out

/-- The line `fmt.Sprintf(" (%d omitted in this list)", omitted)`. -/
def omittedNote (omitted : Int) : String :=
  " (" ++ toString omitted ++ " omitted in this list)"

/-- The line `c.Printf("%d keys in bucket%s\n", len(contents), footnote)`. -/
def keysLine (total : Nat) (footnote : String) : String :=
  toString total ++ " keys in bucket" ++ footnote ++ "\n"

/-- The function `lsCmd` of commands.go. -/
def lsCmd {σ β : Type} (isGraphic : Char → Bool) (api : Bucket σ β) (args : List String)
    (w0 : Session σ β) : Except Abort (Session σ β) := do
  let w := newContext w0
  -- target := cwd; if len(c.Args) > 0 { target, err = travel(target, c.Args[0]) ... }
  let r : TravelResult β ←
    if args.length > 0 then do
      let a0 ← index args 0
      pure (travel api w.store w.cwd a0)
    else
      pure ⟨w.cwd, none, []⟩
  match r.err with
  | some e => pure { w with err := some e, calls := w.calls ++ r.calls }
  | none =>
    match r.bucket with
    | none => throw nilDereference
    | some target =>
      let contents := api.List w.store target
      let entries := printableList isGraphic contents
      let out := printEntries w.out entries
      let calls := w.calls ++ r.calls ++ [Call.list target]
      if w.mode = some Interactive then
        let omitted : Int := (contents.length : Int) - (entries.length : Int)
        let footnote := if omitted > 0 then omittedNote omitted else ""
        pure { w with out := out ++ [keysLine contents.length footnote], calls := calls }
      else
        pure { w with out := out, calls := calls }

/-- The first `switch` of `getCmd`: the usage error, if any.  In the case of
three arguments the body is `if c.Args[1] == "--json" { break }` and nothing
else; a Go `case` does not run into the next one, so with or without the
`break` the `switch` is left and the command goes on. -/
def getCmdUsage (args : List String) : Except Abort (Option Error) :=
  match args.length with
  | 0 => pure (some "get: missing key name")
  | 1 => pure none
  | 3 => do
    let a1 ← index args 1
    if a1 = "--json" then pure none else pure none
  | _ => pure (some "get: too many arguments")

/-- The function `getCmd` of commands.go. -/
def getCmd {σ β π : Type} (api : Bucket σ β) (json : JsonLib π) (args : List String)
    (w0 : Session σ β) : Except Abort (Session σ β) := do
  let w := newContext w0
  match ← getCmdUsage args with
  | some e => pure { w with err := some e }
  | none =>
    let a0 ← index args 0
    let r := parseKeyPath api w.store w.cwd a0
    match r.err with
    | some e => pure { w with err := some e, calls := w.calls ++ r.calls }
    | none =>
      match r.bucket with
      | none => throw nilDereference
      | some target =>
        let calls := w.calls ++ r.calls ++ [Call.get target r.key]
        match api.Get w.store target r.key with
        | Except.error e => pure { w with err := some e, calls := calls }
        | Except.ok data =>
          -- if len(c.Args) == 3 && c.Args[1] == "--json"
          let pointer : Option String ←
            if args.length = 3 then do
              let a1 ← index args 1
              if a1 = "--json" then do
                let a2 ← index args 2
                pure (some a2)
              else pure none
            else pure none
          match pointer with
          | none => pure { w with out := w.out ++ [println data], calls := calls }
          | some ptr =>
            match json.Find data ptr with
            | Except.error e => pure { w with err := some e, calls := calls }
            | Except.ok found => pure { w with out := w.out ++ [println found], calls := calls }

/-- What a write returns: the store after it, its `error`, and the `Bucket`
calls it made. -/
structure WriteResult (σ β : Type) where
  store : σ
  err : Option Error
  calls : List (Call β)

/-- The function `patchJsonValue(bucket, key, patch)` of commands.go. -/
def patchJsonValue {σ β π : Type} (api : Bucket σ β) (json : JsonLib π) (st : σ)
    (bucket : Option β) (key patch : String) : Except Abort (WriteResult σ β) :=
  match bucket with
  | none => throw nilDereference
  | some b =>
    match api.Get st b key with
    | Except.error e => pure ⟨st, some e, [Call.get b key]⟩
    | Except.ok doc =>
      match json.DecodePatch patch with
      | Except.error e => pure ⟨st, some e, [Call.get b key]⟩
      | Except.ok patcher =>
        match json.Apply patcher doc with
        | Except.error e => pure ⟨st, some e, [Call.get b key]⟩
        | Except.ok modified =>
          pure ⟨(api.Put st b key modified).1, (api.Put st b key modified).2,
            [Call.get b key, Call.put b key modified]⟩

/-- The first `switch` of `putCmd`: the usage error, if any. -/
def putCmdUsage (args : List String) : Except Abort (Option Error) :=
  match args.length with
  | 0 => pure (some "put: missing key name and value")
  | 1 => pure (some "put: missing value")
  | 2 => pure none
  | 3 => do
    let a1 ← index args 1
    if a1 ≠ "--json-patch" then
      pure (some "put: expected: <key> --json-patch <patch>")
    else pure none
  | 4 => do
    let a1 ← index args 1
    if a1 ≠ "--json" then
      pure (some "put: expected: <key> --json-set <path> <value>")
    else pure none
  | _ => pure (some "put: too many arguments")

/-- The patch `putCmd` builds for `--json`: the Go format string
`[{"op": "add", "path": "%s", "value": %s}]` filled with the pointer and the
value as they are. -/
def addPatch (pointer value : String) : String :=
  "[\x7b\"op\": \"add\", \"path\": \"" ++ pointer ++ "\", \"value\": " ++ value ++ "\x7d]"

/-- The function `putCmd` of commands.go. -/
def putCmd {σ β π : Type} (api : Bucket σ β) (json : JsonLib π) (args : List String)
    (w0 : Session σ β) : Except Abort (Session σ β) := do
  let w := newContext w0
  match ← putCmdUsage args with
  | some e => pure { w with err := some e }
  | none =>
    let a0 ← index args 0
    let r := parseKeyPath api w.store w.cwd a0
    match r.err with
    | some e => pure { w with err := some e, calls := w.calls ++ r.calls }
    | none =>
      -- switch c.Args[1]
      let a1 ← index args 1
      let res : WriteResult σ β ←
        if a1 = "--json" then do
          let a2 ← index args 2
          let a3 ← index args 3
          patchJsonValue api json w.store r.bucket r.key (addPatch a2 a3)
        else if a1 = "--json-patch" then do
          let a2 ← index args 2
          patchJsonValue api json w.store r.bucket r.key a2
        else
          match r.bucket with
          | none => throw nilDereference
          | some target =>
            pure ⟨(api.Put w.store target r.key a1).1, (api.Put w.store target r.key a1).2,
              [Call.put target r.key a1]⟩
      pure { w with store := res.store, err := res.err, calls := w.calls ++ r.calls ++ res.calls }

/-- The function `setPrompt` of commands.go; `promptFmt` is `"[%s %s] # "`. -/
def setPrompt {σ β : Type} (api : Bucket σ β) (w : Session σ β) : Except Abort (Session σ β) :=
  if w.mode = some Interactive then
    match w.cwd with
    | none => throw nilDereference
    | some b =>
      pure { w with prompt := "[" ++ w.fname ++ " " ++ api.String w.store b ++ "] # ",
                    calls := w.calls ++ [Call.string b] }
  else
    pure { w with prompt := "" }

/-- The loop `for cwd.Prev() != nil { cwd = cwd.Prev() }` of `cdCmd`, with
fuel: nothing in the interface bounds the chain of parents. -/
def gotoRoot {σ β : Type} (api : Bucket σ β) (st : σ) :
    Nat → β → List (Call β) → Except Abort (β × List (Call β))
  | 0, _, _ => throw Abort.outOfFuel
  | fuel + 1, b, calls =>
    match api.Prev st b with
    | none => pure (b, calls ++ [Call.prev b])
    | some p => gotoRoot api st fuel p (calls ++ [Call.prev b, Call.prev b])

/-- The function `cdCmd` of commands.go; `fuel` bounds the walk to the root
of the branch without arguments. -/
def cdCmd {σ β : Type} (api : Bucket σ β) (fuel : Nat) (args : List String)
    (w0 : Session σ β) : Except Abort (Session σ β) := do
  let w := newContext w0
  if args.length < 1 then
    match w.cwd with
    | none => throw nilDereference
    | some b =>
      let (root, calls) ← gotoRoot api w.store fuel b w.calls
      setPrompt api { w with cwd := some root, calls := calls }
  else
    let a0 ← index args 0
    let r := travel api w.store w.cwd a0
    match r.err with
    | some e => pure { w with err := some e, calls := w.calls ++ r.calls }
    | none => setPrompt api { w with cwd := r.bucket, calls := w.calls ++ r.calls }

/-! ## An in-memory store -/

/-- What a path of the in-memory store holds: a bucket or a value. -/
inductive Entry where
  | dir
  | val (v : String)
  deriving DecidableEq, Repr

/-- The in-memory store: the absolute path of every bucket and key, with
what it holds. -/
abbrev MemStore := List (List String × Entry)

/-- A bucket of the in-memory store: its path from the root; the root is the
empty path. -/
abbrev MemBucket := List String

/-- The names directly under `b` whose entry satisfies `keep`. -/
def memChildren (st : MemStore) (b : MemBucket) (keep : Entry → Bool) : List String :=
  st.filterMap (fun pe =>
    if pe.1 ≠ [] ∧ pe.1.dropLast = b ∧ keep pe.2 = true then pe.1.getLast? else none)

/-- Modelled from the spec: an in-memory implementation of the `Bucket`
contract of spec §4.1 (the bolt-backed one is not part of the sources at
hand).  `Cd` fails when no child bucket has the name, handing back `nil` with
the error; `Prev` is `nil` only at the root; `Get` fails on a missing key or
a bucket; `Put` creates or overwrites; `Mkdir` fails when the name exists;
`Rm` fails when nothing has the name and removes the subtree otherwise. -/
def memBucket : Bucket MemStore MemBucket where
  Cd := fun st b name =>
    if (b ++ [name], Entry.dir) ∈ st then (some (b ++ [name]), none)
    else (none, some ("bucket not found: " ++ name))
  Prev := fun _ b => if b = [] then none else some b.dropLast
  Get := fun st b key =>
    match st.lookup (b ++ [key]) with
    | some (Entry.val v) => Except.ok v
    | _ => Except.error ("key not found: " ++ key)
  Put := fun st b key value =>
    (st.filter (fun pe => pe.1 ≠ b ++ [key]) ++ [(b ++ [key], Entry.val value)], none)
  Mkdir := fun st b name =>
    match st.lookup (b ++ [name]) with
    | some _ => (st, some ("already exists: " ++ name))
    | none => (st ++ [(b ++ [name], Entry.dir)], none)
  Rm := fun st b name =>
    match st.lookup (b ++ [name]) with
    | some _ => (st.filter (fun pe => ¬ (b ++ [name]) <+: pe.1), none)
    | none => (st, some ("not found: " ++ name))
  Buckets := fun st b _ => memChildren st b (fun e => e = Entry.dir)
  List := fun st b => memChildren st b (fun _ => true)
  String := fun _ b => "/" ++ stringsJoin b "/"

/-- A JSON library that knows the empty patch only; enough to run the
commands on examples. -/
def trivialJson : JsonLib Unit where
  Find := fun data ptr => if ptr = "" then Except.ok data else Except.error "pointer not found"
  DecodePatch := fun patch => if patch = "[]" then Except.ok () else Except.error "bad patch"
  Apply := fun _ doc => Except.ok doc

/-- A session at the root of the in-memory store `st`. -/
def memSession (st : MemStore) : Session MemStore MemBucket :=
  { store := st, cwd := some [], fname := "db", mode := none, prompt := "",
    out := [], err := none, calls := [] }

/-- A store with a bucket `a` holding a key `k`, and a key `k` at the root. -/
def demoStore : MemStore :=
  [(["a"], Entry.dir), (["a", "k"], Entry.val "inner"), (["k"], Entry.val "v")]

/-! ## Auxiliary definitions for the statements -/

/-- A segment `travel` does something for: neither empty nor `"."`. -/
def meaningful (part : String) : Bool := part ≠ "" && part ≠ "."

/-- A listing with a name that holds a tab. -/
def tabStore : MemStore :=
  [(["a"], Entry.dir), (["t\tx"], Entry.val "hidden"), (["k"], Entry.val "v")]

/-- A stand-in for `unicode.IsGraphic` on examples: everything but the tab. -/
def notTab (c : Char) : Bool := c != '\t'

/-! ## Lemmas on splitting -/

theorem splitOn_append_sep (c : Char) (a b : List Char) :
    (a ++ c :: b).splitOn c = a.splitOn c ++ b.splitOn c := by
  induction a with
  | nil => simp [List.splitOn, List.splitOnP_cons, List.splitOnP_nil]
  | cons x a ih =>
    simp only [List.splitOn] at ih ⊢
    simp only [List.cons_append, List.splitOnP_cons, ih]
    by_cases h : (x == c) = true
    · simp [h]
    · simp only [h, if_false]
      cases hs : List.splitOnP (fun y => y == c) a with
      | nil => exact absurd hs (List.splitOnP_ne_nil _ _)
      | cons s ss => simp [List.modifyHead]

theorem stringsSplit_append_slash (a b : String) :
    stringsSplit (a ++ "/" ++ b) = stringsSplit a ++ stringsSplit b := by
  have h : (a ++ "/" ++ b).data = a.data ++ '/' :: b.data := by
    simp [String.data_append]
  simp [stringsSplit, h, splitOn_append_sep]

theorem stringsSplit_empty : stringsSplit "" = [""] := by decide

theorem stringsSplit_no_slash (s : String) (h : '/' ∉ s.data) : stringsSplit s = [s] := by
  have : ∀ l : List Char, '/' ∉ l → l.splitOn '/' = [l] := by
    intro l hl
    induction l with
    | nil => rfl
    | cons x l ih =>
      simp only [List.mem_cons, not_or] at hl
      have ih2 := ih hl.2
      simp only [List.splitOn] at ih2 ⊢
      rw [List.splitOnP_cons, ih2]
      have : (x == '/') = false := by
        simp; exact fun h => hl.1 h.symm
      simp [this, List.modifyHead]
  simp [stringsSplit, this s.data h]


/-! ## Lemmas on the loop of `travel` -/

section TravelLemmas

variable {σ β : Type} (api : Bucket σ β) (st : σ)

theorem travelLoop_err (parts : List String) (cwd : Option β) (e : Error)
    (calls : List (Call β)) :
    travelLoop api st parts cwd (some e) calls = ⟨cwd, some e, calls⟩ := by
  cases parts <;> simp [travelLoop]

theorem travelLoop_nil_bucket (parts : List String) (err : Option Error)
    (calls : List (Call β)) :
    travelLoop api st parts none err calls = ⟨none, err, calls⟩ := by
  cases parts <;> cases err <;> simp [travelLoop]

theorem travelLoop_stopped (parts : List String) (cwd : Option β) (err : Option Error)
    (calls : List (Call β)) (h : err ≠ none ∨ cwd = none) :
    travelLoop api st parts cwd err calls = ⟨cwd, err, calls⟩ := by
  rcases h with h | h
  · cases err with
    | none => exact absurd rfl h
    | some e => exact travelLoop_err api st parts cwd e calls
  · subst h; exact travelLoop_nil_bucket api st parts err calls

theorem travelLoop_calls (parts : List String) (cwd : Option β) (err : Option Error)
    (calls : List (Call β)) :
    travelLoop api st parts cwd err calls =
      ⟨(travelLoop api st parts cwd err []).bucket, (travelLoop api st parts cwd err []).err,
        calls ++ (travelLoop api st parts cwd err []).calls⟩ := by
  induction parts generalizing cwd err calls with
  | nil => simp [travelLoop]
  | cons part rest ih =>
    cases err with
    | some e => simp [travelLoop_err]
    | none =>
      cases cwd with
      | none => simp [travelLoop_nil_bucket]
      | some b =>
        simp only [travelLoop]
        split_ifs with h1 h2 h3
        · exact ih _ _ _
        · cases hp : api.Prev st b with
          | none =>
            simp only []
            rw [ih _ _ (calls ++ _), ih _ _ ([] ++ _)]
            simp
          | some p =>
            simp only []
            rw [ih _ _ (calls ++ _), ih _ _ ([] ++ _)]
            simp
        · rw [ih _ _ (calls ++ _), ih _ _ ([] ++ _)]
          simp
        · exact ih _ _ _

theorem travelLoop_append (pre post : List String) (cwd : Option β) (err : Option Error)
    (calls : List (Call β)) :
    travelLoop api st (pre ++ post) cwd err calls =
      travelLoop api st post (travelLoop api st pre cwd err calls).bucket
        (travelLoop api st pre cwd err calls).err (travelLoop api st pre cwd err calls).calls := by
  induction pre generalizing cwd err calls with
  | nil => simp [travelLoop]
  | cons part rest ih =>
    cases err with
    | some e => simp [travelLoop_err]
    | none =>
      cases cwd with
      | none => simp [travelLoop_nil_bucket]
      | some b =>
        simp only [List.cons_append, travelLoop]
        split_ifs with h1 h2 h3
        · exact ih _ _ _
        · cases hp : api.Prev st b <;> exact ih _ _ _
        · exact ih _ _ _
        · exact ih _ _ _

theorem travelLoop_filter (parts : List String) (cwd : Option β) (err : Option Error)
    (calls : List (Call β)) :
    travelLoop api st (parts.filter meaningful) cwd err calls =
      travelLoop api st parts cwd err calls := by
  induction parts generalizing cwd err calls with
  | nil => simp [travelLoop]
  | cons part rest ih =>
    cases err with
    | some e => simp [travelLoop_err]
    | none =>
      cases cwd with
      | none => simp [travelLoop_nil_bucket]
      | some b =>
        by_cases h1 : part = ""
        · subst h1
          simp [List.filter, meaningful, travelLoop, ih]
        · by_cases h2 : part = "."
          · subst h2
            have : ("." : String) ≠ ".." := by decide
            simp [List.filter, meaningful, travelLoop, ih, this]
          · have hm : meaningful part = true := by simp [meaningful, h1, h2]
            simp only [List.filter, hm, travelLoop, h1, if_false]
            split_ifs with h3
            · cases hp : api.Prev st b <;> exact ih _ _ _
            · exact ih _ _ _

theorem travelLoop_calls_navigation (parts : List String) (cwd : Option β)
    (err : Option Error) (calls : List (Call β)) (h : ∀ c ∈ calls, c.isNavigation = true) :
    ∀ c ∈ (travelLoop api st parts cwd err calls).calls, c.isNavigation = true := by
  induction parts generalizing cwd err calls with
  | nil => simpa [travelLoop] using h
  | cons part rest ih =>
    cases err with
    | some e => simpa [travelLoop_err] using h
    | none =>
      cases cwd with
      | none => simpa [travelLoop_nil_bucket] using h
      | some b =>
        simp only [travelLoop]
        split_ifs with h1 h2 h3
        · exact ih _ _ _ h
        · cases hp : api.Prev st b with
          | none =>
            apply ih
            intro c hc
            rcases List.mem_append.1 hc with hc | hc
            · exact h c hc
            · simp at hc; subst hc; rfl
          | some p =>
            apply ih
            intro c hc
            rcases List.mem_append.1 hc with hc | hc
            · exact h c hc
            · simp at hc; subst hc; rfl
        · apply ih
          intro c hc
          rcases List.mem_append.1 hc with hc | hc
          · exact h c hc
          · simp at hc; subst hc; rfl
        · exact ih _ _ _ h

theorem travel_calls_navigation (cwd : Option β) (path : String) :
    ∀ c ∈ (travel api st cwd path).calls, c.isNavigation = true :=
  travelLoop_calls_navigation api st _ cwd none [] (by simp)

end TravelLemmas


section PathTheorems

variable {σ β : Type} (api : Bucket σ β) (st : σ)

theorem stringsSplit_join_dotdot (n : Nat) :
    stringsSplit (stringsJoin (List.replicate (n + 1) "..") "/") = List.replicate (n + 1) ".." := by
  induction n with
  | zero => decide
  | succ n ih =>
    have : stringsJoin (List.replicate (n + 1 + 1) "..") "/"
        = ".." ++ "/" ++ stringsJoin (List.replicate (n + 1) "..") "/" := by
      simp [List.replicate, stringsJoin]
    rw [this, stringsSplit_append_slash, ih]
    have h2 : stringsSplit ".." = [".."] := by decide
    rw [h2]
    simp [List.replicate]

theorem travelLoop_dotdot_root (r : β) (hroot : api.Prev st r = none) (n : Nat)
    (calls : List (Call β)) :
    travelLoop api st (List.replicate n "..") (some r) none calls =
      ⟨some r, none, calls ++ List.replicate n (Call.prev r)⟩ := by
  induction n generalizing calls with
  | zero => simp [travelLoop]
  | succ n ih =>
    have h0 : (".." : String) ≠ "" := by decide
    simp only [List.replicate, travelLoop, h0, if_false, if_true, hroot]
    rw [ih]
    simp [List.replicate_succ]

/-- C5. At a root bucket `r` (one whose `Prev()` is `nil`), `travel` along
`n` copies of `".."` joined by `'/'` returns `r` with no error; the only
`Bucket` calls it makes are the `n` calls `r.Prev()`, so `Cd` is never
called. -/
theorem travel_dotdot_at_root (r : β) (hroot : api.Prev st r = none) (n : Nat) (hn : 1 ≤ n) :
    travel api st (some r) (stringsJoin (List.replicate n "..") "/") =
        ⟨some r, none, List.replicate n (Call.prev r)⟩ ∧
      ((travel api st (some r) (stringsJoin (List.replicate n "..") "/")).calls.filter
        Call.isCd).length = 0 := by
  obtain ⟨m, rfl⟩ : ∃ m, n = m + 1 := ⟨n - 1, by omega⟩
  have h : travel api st (some r) (stringsJoin (List.replicate (m + 1) "..") "/") =
      ⟨some r, none, List.replicate (m + 1) (Call.prev r)⟩ := by
    unfold travel
    rw [stringsSplit_join_dotdot, travelLoop_dotdot_root api st r hroot]
    simp
  refine ⟨h, ?_⟩
  rw [h]
  simp [List.filter_replicate, Call.isCd]

/-- C10. `travel` depends only on the segments of the path that are neither
empty nor `"."`: two paths with the same list of such segments give the same
bucket, the same error (and the same `Bucket` calls).  The empty path returns
the start with no error, and a leading, a trailing or a doubled `'/'` changes
nothing: a leading slash does not anchor the path at the root. -/
theorem travel_meaningful_segments (b : Option β) :
    (∀ p q : String,
        (stringsSplit p).filter meaningful = (stringsSplit q).filter meaningful →
        travel api st b p = travel api st b q) ∧
      travel api st b "" = ⟨b, none, []⟩ ∧
      (∀ p : String, travel api st b ("/" ++ p) = travel api st b p) ∧
      (∀ p : String, travel api st b (p ++ "/") = travel api st b p) ∧
      (∀ p q : String, travel api st b (p ++ "/" ++ "/" ++ q) = travel api st b (p ++ "/" ++ q)) := by
  have key : ∀ p q : String,
      (stringsSplit p).filter meaningful = (stringsSplit q).filter meaningful →
      travel api st b p = travel api st b q := by
    intro p q h
    unfold travel
    rw [← travelLoop_filter api st (stringsSplit p), h, travelLoop_filter]
  have hempty : (stringsSplit "").filter meaningful = [] := by decide
  refine ⟨key, ?_, ?_, ?_, ?_⟩
  · cases b <;> simp [travel, stringsSplit_empty, travelLoop]
  · intro p
    apply key
    have : ("/" ++ p : String) = "" ++ "/" ++ p := by simp
    rw [this, stringsSplit_append_slash, List.filter_append, hempty]
    simp
  · intro p
    apply key
    have : (p ++ "/" : String) = p ++ "/" ++ "" := by simp
    rw [this, stringsSplit_append_slash, List.filter_append, hempty]
    simp
  · intro p q
    apply key
    have : (p ++ "/" ++ "/" ++ q : String) = p ++ "/" ++ ("" ++ "/" ++ q) := by
      simp only [String.append_assoc, String.empty_append]
    rw [this, stringsSplit_append_slash, stringsSplit_append_slash, stringsSplit_append_slash,
      List.filter_append, List.filter_append, List.filter_append, hempty]
    simp

/-- C3 (as amended). When the segments of the path are `pre ++ seg :: post`,
the segments `pre` lead from the start to a bucket `b` without error, `seg`
is a name (not empty, not `"."`, not `".."`) and `b.Cd(seg)` fails with `e`
handing back `x`, then `travel` stops there: it returns the error `e` with the
value `x` the failing `Cd` handed back, and its last `Bucket` call is that
`Cd`; no segment of `post` is visited. -/
theorem travel_stops_at_first_failure (start : Option β) (path : String)
    (pre post : List String) (seg : String) (b : β) (calls : List (Call β))
    (x : Option β) (e : Error)
    (hsplit : stringsSplit path = pre ++ seg :: post)
    (hpre : travelLoop api st pre start none [] = ⟨some b, none, calls⟩)
    (h1 : seg ≠ "") (h2 : seg ≠ "..") (h3 : seg ≠ ".")
    (hcd : api.Cd st b seg = (x, some e)) :
    travel api st start path = ⟨x, some e, calls ++ [Call.cd b seg]⟩ := by
  unfold travel
  rw [hsplit, travelLoop_append, hpre]
  simp [travelLoop, h1, h2, h3, hcd, travelLoop_err]

end PathTheorems


/-! ## Lemmas on `strings.LastIndex` and slicing -/

theorem lastIndexAux_not_mem (c : Char) (xs : List Char) (i : Nat) (found : Int)
    (h : c ∉ xs) : lastIndexAux c xs i found = found := by
  induction xs generalizing i found with
  | nil => rfl
  | cons x xs ih =>
    simp only [List.mem_cons, not_or] at h
    have hx : ¬ x = c := fun hxc => h.1 hxc.symm
    simp [lastIndexAux, hx, ih (i + 1) found h.2]

theorem lastIndexAux_append (c : Char) (d k : List Char) (i : Nat) (found : Int)
    (h : c ∉ k) : lastIndexAux c (d ++ c :: k) i found = ((i + d.length : Nat) : Int) := by
  induction d generalizing i found with
  | nil => simp [lastIndexAux, lastIndexAux_not_mem c k _ _ h]
  | cons x d ih =>
    show lastIndexAux c (x :: (d ++ c :: k)) i found = _
    rw [lastIndexAux, ih, List.length_cons]
    congr 1
    omega

theorem stringsLastIndex_no_slash (path : String) (h : '/' ∉ path.data) :
    stringsLastIndex path = -1 :=
  lastIndexAux_not_mem '/' path.data 0 (-1) h

theorem data_dir_key (d k : String) : (d ++ "/" ++ k).data = d.data ++ '/' :: k.data := by
  simp [String.data_append]

theorem stringsLastIndex_dir_key (d k : String) (h : '/' ∉ k.data) :
    stringsLastIndex (d ++ "/" ++ k) = (d.data.length : Int) := by
  unfold stringsLastIndex
  rw [data_dir_key, lastIndexAux_append '/' d.data k.data 0 (-1) h]
  simp

theorem sliceTo_dir_key (d k : String) : sliceTo (d ++ "/" ++ k) d.data.length = d := by
  unfold sliceTo
  rw [data_dir_key]
  simp

theorem sliceFrom_dir_key (d k : String) :
    sliceFrom (d ++ "/" ++ k) (d.data.length + 1) = k := by
  unfold sliceFrom
  rw [data_dir_key]
  have h : d.data ++ '/' :: k.data = (d.data ++ ['/']) ++ k.data := by simp
  have hl : d.data.length + 1 = (d.data ++ ['/']).length := by simp
  rw [h, hl, List.drop_left]

theorem exists_dir_key (path : String) (h : '/' ∈ path.data) :
    ∃ d k : String, path = d ++ "/" ++ k ∧ '/' ∉ k.data := by
  have key : ∀ l : List Char, '/' ∈ l → ∃ d k : List Char, l = d ++ '/' :: k ∧ '/' ∉ k := by
    intro l
    induction l with
    | nil => intro hl; simp at hl
    | cons x l ih =>
      intro hl
      by_cases hin : '/' ∈ l
      · obtain ⟨d, k, hdk, hk⟩ := ih hin
        exact ⟨x :: d, k, by simp [hdk], hk⟩
      · have hx : x = '/' := by
          rcases List.mem_cons.1 hl with hx | hx
          · exact hx.symm
          · exact absurd hx hin
        exact ⟨[], l, by simp [hx], hin⟩
  obtain ⟨d, k, hdk, hk⟩ := key path.data h
  refine ⟨String.mk d, String.mk k, ?_, hk⟩
  apply String.ext
  rw [data_dir_key]
  exact hdk

section KeyPathTheorems

variable {σ β : Type} (api : Bucket σ β) (st : σ)

theorem parseKeyPath_no_slash (start : Option β) (path : String) (h : '/' ∉ path.data) :
    parseKeyPath api st start path = ⟨start, path, none, []⟩ := by
  simp [parseKeyPath, stringsLastIndex_no_slash path h]

theorem parseKeyPath_dir_key (start : Option β) (d k : String) (h : '/' ∉ k.data) :
    parseKeyPath api st start (d ++ "/" ++ k) =
      ⟨(travel api st start d).bucket, k, (travel api st start d).err,
        (travel api st start d).calls⟩ := by
  have hneg : ¬ ((d.data.length : Int) < 0) := by omega
  have h1 : ((d.data.length : Int) + 1).toNat = d.data.length + 1 := by omega
  simp only [parseKeyPath, stringsLastIndex_dir_key d k h, hneg, if_false, h1,
    Int.toNat_ofNat, sliceTo_dir_key, sliceFrom_dir_key]

/-- C2. `parseKeyPath` against its reference definition.  A path without
`'/'` gives the start bucket and the path as key, with no error and no
`Bucket` call.  A path `d ++ "/" ++ k`, where `k` has no `'/'`, gives the key
`k` with the bucket and the error of `travel(start, d)`, and its `Bucket`
calls are those of `travel(start, d)`: the leaf `k` is not resolved.  Every
path with a `'/'` is of that form. -/
theorem parseKeyPath_spec (start : Option β) :
    (∀ path : String, '/' ∉ path.data →
        parseKeyPath api st start path = ⟨start, path, none, []⟩) ∧
      (∀ d k : String, '/' ∉ k.data →
        parseKeyPath api st start (d ++ "/" ++ k) =
          ⟨(travel api st start d).bucket, k, (travel api st start d).err,
            (travel api st start d).calls⟩) ∧
      (∀ path : String, '/' ∈ path.data →
        ∃ d k : String, path = d ++ "/" ++ k ∧ '/' ∉ k.data) :=
  ⟨parseKeyPath_no_slash api st start, parseKeyPath_dir_key api st start, exists_dir_key⟩

end KeyPathTheorems


section CommandTheorems

variable {σ β π : Type} (api : Bucket σ β) (json : JsonLib π)

/-- C7. `put` does not write when the directory part of its path does not
resolve.  For a path `d ++ "/" ++ k` (`k` without `'/'`) such that
`travel(cwd, d)` returns the error `e`, `putCmd` in each of its three write
modes returns having reported `e`; the store, the working bucket and the
output are as before, and the only `Bucket` calls made are the `Cd` and `Prev`
calls of that `travel`: no `Put`, `Get` or `Mkdir`. -/
theorem putCmd_unresolved_dir_no_write (w : Session σ β) (d k : String) (e : Error)
    (hk : '/' ∉ k.data) (herr : (travel api w.store w.cwd d).err = some e) :
    (∀ v : String, putCmd api json [d ++ "/" ++ k, v] w =
        Except.ok { w with err := some e,
                           calls := w.calls ++ (travel api w.store w.cwd d).calls }) ∧
      (∀ patch : String, putCmd api json [d ++ "/" ++ k, "--json-patch", patch] w =
        Except.ok { w with err := some e,
                           calls := w.calls ++ (travel api w.store w.cwd d).calls }) ∧
      (∀ pointer v : String, putCmd api json [d ++ "/" ++ k, "--json", pointer, v] w =
        Except.ok { w with err := some e,
                           calls := w.calls ++ (travel api w.store w.cwd d).calls }) ∧
      (∀ c ∈ (travel api w.store w.cwd d).calls, c.isNavigation = true) := by
  refine ⟨?_, ?_, ?_, travel_calls_navigation api w.store w.cwd d⟩
  · intro v
    simp [putCmd, putCmdUsage, index, newContext, parseKeyPath_dir_key api w.store w.cwd d k hk,
      herr, bind, Except.bind, pure, Except.pure]
  · intro patch
    simp [putCmd, putCmdUsage, index, newContext, parseKeyPath_dir_key api w.store w.cwd d k hk,
      herr, bind, Except.bind, pure, Except.pure]
  · intro pointer v
    simp [putCmd, putCmdUsage, index, newContext, parseKeyPath_dir_key api w.store w.cwd d k hk,
      herr, bind, Except.bind, pure, Except.pure]

/-- C6. `patchJsonValue` on a bucket `b` always returns, and calls `Put` at
most once.  Either `Get`, the decoding of the patch and its application all
succeed, and then the calls are the `Get` followed by one `Put` of the patched
document under the same key, whose store and error are the result; or the
first of the three to fail gives the error returned, the store is as before
and the only call made is the `Get`. -/
theorem patchJsonValue_atomic (st : σ) (b : β) (key patch : String) :
    ∃ r : WriteResult σ β,
      patchJsonValue api json st (some b) key patch = Except.ok r ∧
      (r.calls.filter Call.isPut).length ≤ 1 ∧
      ((∃ doc patcher modified,
          api.Get st b key = Except.ok doc ∧
          json.DecodePatch patch = Except.ok patcher ∧
          json.Apply patcher doc = Except.ok modified ∧
          r.calls = [Call.get b key, Call.put b key modified] ∧
          r.store = (api.Put st b key modified).1 ∧
          r.err = (api.Put st b key modified).2) ∨
       (∃ e : Error,
          r.err = some e ∧ r.store = st ∧ r.calls = [Call.get b key] ∧
          (api.Get st b key = Except.error e ∨
            ∃ doc, api.Get st b key = Except.ok doc ∧
              (json.DecodePatch patch = Except.error e ∨
                ∃ patcher, json.DecodePatch patch = Except.ok patcher ∧
                  json.Apply patcher doc = Except.error e)))) := by
  cases hg : api.Get st b key with
  | error e =>
    refine ⟨⟨st, some e, [Call.get b key]⟩, ?_, ?_, ?_⟩
    · simp [patchJsonValue, hg, pure, Except.pure]
    · simp [Call.isPut]
    · exact Or.inr ⟨e, rfl, rfl, rfl, Or.inl rfl⟩
  | ok doc =>
    cases hd : json.DecodePatch patch with
    | error e =>
      refine ⟨⟨st, some e, [Call.get b key]⟩, ?_, ?_, ?_⟩
      · simp [patchJsonValue, hg, hd, pure, Except.pure]
      · simp [Call.isPut]
      · exact Or.inr ⟨e, rfl, rfl, rfl, Or.inr ⟨doc, rfl, Or.inl rfl⟩⟩
    | ok patcher =>
      cases ha : json.Apply patcher doc with
      | error e =>
        refine ⟨⟨st, some e, [Call.get b key]⟩, ?_, ?_, ?_⟩
        · simp [patchJsonValue, hg, hd, ha, pure, Except.pure]
        · simp [Call.isPut]
        · exact Or.inr ⟨e, rfl, rfl, rfl, Or.inr ⟨doc, rfl, Or.inr ⟨patcher, rfl, ha⟩⟩⟩
      | ok modified =>
        refine ⟨⟨(api.Put st b key modified).1, (api.Put st b key modified).2,
          [Call.get b key, Call.put b key modified]⟩, ?_, ?_, ?_⟩
        · simp [patchJsonValue, hg, hd, ha, pure, Except.pure]
        · simp [Call.isPut]
        · exact Or.inl ⟨doc, patcher, modified, rfl, rfl, ha, rfl, rfl, rfl⟩

/-- C8. `cdCmd` with a path argument `p`.  When `travel(cwd, p)` returns an
error, that error is reported and the working bucket, the store, the prompt
and the output are as before.  When it returns no error, the command returns
with the bucket of `travel` as the working bucket and no error reported, the
store and the output as before (provided that bucket is not `nil` or the mode
is not interactive: `setPrompt` calls `String()` on it in interactive mode). -/
theorem cdCmd_rebinds_on_success (fuel : Nat) (w : Session σ β) (p : String) :
    (∀ e : Error, (travel api w.store w.cwd p).err = some e →
        cdCmd api fuel [p] w =
          Except.ok { w with err := some e,
                             calls := w.calls ++ (travel api w.store w.cwd p).calls }) ∧
      ((travel api w.store w.cwd p).err = none →
        ((travel api w.store w.cwd p).bucket ≠ none ∨ w.mode ≠ some Interactive) →
        ∃ w1 : Session σ β, cdCmd api fuel [p] w = Except.ok w1 ∧
          w1.cwd = (travel api w.store w.cwd p).bucket ∧ w1.err = none ∧
          w1.store = w.store ∧ w1.out = w.out) := by
  constructor
  · intro e he
    simp [cdCmd, index, newContext, he, bind, Except.bind, pure, Except.pure]
  · intro he hb
    by_cases hm : w.mode = some Interactive
    · cases hbk : (travel api w.store w.cwd p).bucket with
      | none =>
        rcases hb with hb | hb
        · exact absurd hbk hb
        · exact absurd hm hb
      | some b =>
        refine ⟨{ w with err := none, cwd := some b,
                         prompt := "[" ++ w.fname ++ " " ++ api.String w.store b ++ "] # ",
                         calls := w.calls ++ (travel api w.store w.cwd p).calls ++
                           [Call.string b] },
          ?_, rfl, rfl, rfl, rfl⟩
        simp [cdCmd, index, newContext, he, hbk, bind, Except.bind, pure, Except.pure,
          setPrompt, hm]
    · refine ⟨{ w with err := none, cwd := (travel api w.store w.cwd p).bucket, prompt := "",
                       calls := w.calls ++ (travel api w.store w.cwd p).calls },
        ?_, rfl, rfl, rfl, rfl⟩
      simp [cdCmd, index, newContext, he, bind, Except.bind, pure, Except.pure,
        setPrompt, hm]

/-- The round trip of `put` and `get` for a value that is neither of the two
flags: with a key `k` without `'/'`, on a bucket whose `Put` succeeds and
whose `Get` then returns what was put, `putCmd [k, v]` followed by
`getCmd [k]` reports no error and prints `v`. -/
theorem putCmd_getCmd_roundtrip_plain_value (w : Session σ β) (b : β) (k v : String)
    (hk : '/' ∉ k.data) (hv1 : v ≠ "--json") (hv2 : v ≠ "--json-patch")
    (hcwd : w.cwd = some b)
    (hput : (api.Put w.store b k v).2 = none)
    (hget : api.Get (api.Put w.store b k v).1 b k = Except.ok v) :
    ∃ w1 w2 : Session σ β,
      putCmd api json [k, v] w = Except.ok w1 ∧ w1.err = none ∧
      getCmd api json [k] w1 = Except.ok w2 ∧ w2.err = none ∧
      w2.out = w.out ++ [println v] := by
  refine ⟨{ w with err := none, store := (api.Put w.store b k v).1,
                   calls := w.calls ++ [Call.put b k v] },
    { w with err := none, store := (api.Put w.store b k v).1,
             out := w.out ++ [println v],
             calls := w.calls ++ [Call.put b k v] ++ [Call.get b k] },
    ?_, rfl, ?_, rfl, rfl⟩
  · simp [putCmd, putCmdUsage, index, newContext, parseKeyPath_no_slash api w.store (some b) k hk,
      hcwd, hv1, hv2, hput, bind, Except.bind, pure, Except.pure]
  · simp [getCmd, getCmdUsage, index, newContext,
      parseKeyPath_no_slash api (api.Put w.store b k v).1 (some b) k hk,
      hcwd, hget, bind, Except.bind, pure, Except.pure]

end CommandTheorems


/-! ## Lemmas on `printableList` -/

theorem isPrintable_eq_all (isGraphic : Char → Bool) (s : String) :
    isPrintable isGraphic s = s.data.all isGraphic := by
  unfold isPrintable
  induction s.data with
  | nil => rfl
  | cons r rest ih =>
    cases h : isGraphic r <;> simp [isPrintableRunes, h, ih]

theorem foldl_append_filter {α : Type} (p : α → Bool) (l acc : List α) :
    l.foldl (fun r v => if p v = true then r ++ [v] else r) acc = acc ++ l.filter p := by
  induction l generalizing acc with
  | nil => simp
  | cons v l ih =>
    cases h : p v <;> simp [List.foldl, List.filter, h, ih]

theorem printableList_eq_filter (isGraphic : Char → Bool) (s : List String) :
    printableList isGraphic s = s.filter (fun name => name.data.all isGraphic) := by
  unfold printableList
  rw [foldl_append_filter (isPrintable isGraphic) s []]
  rw [List.nil_append]
  congr 1
  funext name
  exact isPrintable_eq_all isGraphic name

theorem printEntries_eq_map (out entries : List String) :
    printEntries out entries = out ++ entries.map println := by
  unfold printEntries
  induction entries generalizing out with
  | nil => simp
  | cons e es ih => simp [List.foldl, ih]

theorem length_sub_filter {α : Type} (p : α → Bool) (l : List α) :
    (l.length : Int) - ((l.filter p).length : Int) = ((l.countP (fun a => ! p a) : Nat) : Int) := by
  have h := List.length_eq_countP_add_countP p l
  rw [← List.countP_eq_length_filter]
  have h2 : List.countP (fun a => decide ¬p a = true) l = List.countP (fun a => ! p a) l := by
    congr 1
    funext a
    cases p a <;> simp
  omega

section LsTheorems

variable {σ β : Type} (api : Bucket σ β)

/-- C9. `lsCmd` on a target bucket (the working bucket when there is no
argument, the bucket `travel` resolves the first argument to otherwise).  The
lines printed are the names of `List()` all of whose characters are graphic,
in the order and with the multiplicity of `List()`, one per line.  In
interactive mode one more line follows, with the length of the whole list as
total and, only when it is positive, the number of names left out; that
number is the total minus the number of names printed. -/
theorem lsCmd_prints_printable (isGraphic : Char → Bool) (w : Session σ β)
    (args : List String) (target : β) (tcalls : List (Call β))
    (hres : (args = [] ∧ w.cwd = some target ∧ tcalls = []) ∨
      (∃ p rest, args = p :: rest ∧
        travel api w.store w.cwd p = ⟨some target, none, tcalls⟩)) :
    lsCmd isGraphic api args w =
        Except.ok { w with
          err := none,
          out := w.out ++
            ((api.List w.store target).filter (fun name => name.data.all isGraphic)).map println ++
            (if w.mode = some Interactive then
              [keysLine (api.List w.store target).length
                (if 0 < (api.List w.store target).countP (fun name => ! name.data.all isGraphic)
                 then omittedNote (((api.List w.store target).countP
                        (fun name => ! name.data.all isGraphic) : Nat) : Int)
                 else "")]
             else []),
          calls := w.calls ++ tcalls ++ [Call.list target] } ∧
      ((api.List w.store target).filter (fun name => name.data.all isGraphic)).length +
          (api.List w.store target).countP (fun name => ! name.data.all isGraphic) =
        (api.List w.store target).length := by
  have hlen := length_sub_filter (fun name : String => name.data.all isGraphic)
    (api.List w.store target)
  constructor
  · rcases hres with ⟨rfl, hcwd, rfl⟩ | ⟨p, rest, rfl, htr⟩
    · by_cases hm : w.mode = some Interactive
      · simp only [lsCmd, newContext, index, hcwd, hm, bind, Except.bind, pure, Except.pure,
          List.length_nil, gt_iff_lt, Nat.lt_irrefl, if_false,
          printableList_eq_filter, printEntries_eq_map, hlen]
        simp
      · simp only [lsCmd, newContext, index, hcwd, hm, bind, Except.bind, pure, Except.pure,
          List.length_nil, gt_iff_lt, Nat.lt_irrefl, if_false,
          printableList_eq_filter, printEntries_eq_map, hlen]
        simp
    · by_cases hm : w.mode = some Interactive
      · simp only [lsCmd, newContext, index, htr, hm, bind, Except.bind, pure, Except.pure,
          List.length_cons, List.get?_cons_zero, gt_iff_lt, Nat.zero_lt_succ, if_true,
          printableList_eq_filter, printEntries_eq_map, hlen]
        simp
      · simp only [lsCmd, newContext, index, htr, hm, bind, Except.bind, pure, Except.pure,
          List.length_cons, List.get?_cons_zero, gt_iff_lt, Nat.zero_lt_succ, if_true,
          printableList_eq_filter, printEntries_eq_map, hlen]
        simp
  · have := hlen
    have hle := List.length_filter_le (fun name : String => name.data.all isGraphic)
      (api.List w.store target)
    omega

end LsTheorems


/-! ## The code on concrete inputs -/

/-- C1. `putCmd` with the two arguments `k` and `--json`, or `k` and
`--json-patch`, at the root of an empty store: the argument count passes as
the form `<key> <value>`, the path resolves, and the second `switch` takes the
value for a flag and reads `c.Args[2]`, which does not exist: the command
panics and nothing is stored. -/
theorem putCmd_flag_like_value_panics :
    putCmdUsage ["k", "--json"] = Except.ok none ∧
      putCmd memBucket trivialJson ["k", "--json"] (memSession []) =
        Except.error indexOutOfRange ∧
      putCmdUsage ["k", "--json-patch"] = Except.ok none ∧
      putCmd memBucket trivialJson ["k", "--json-patch"] (memSession []) =
        Except.error indexOutOfRange :=
  ⟨rfl, rfl, rfl, rfl⟩

/-- C4. `getCmd` with the three arguments `k`, `x`, `y`, whose second is not
`--json`, at the root of a store where `k` holds `v`: no usage error is
reported; the path is resolved, `Get` is called and the value is printed. -/
theorem getCmd_three_args_without_flag_prints :
    getCmdUsage ["k", "x", "y"] = Except.ok none ∧
      getCmd memBucket trivialJson ["k", "x", "y"] (memSession demoStore) =
        Except.ok { memSession demoStore with
          out := ["v\n"], err := none, calls := [Call.get [] "k"] } :=
  ⟨rfl, rfl⟩

/-- C3 (counterexample to the statement of the specification).  In a store with a bucket `a` and no
bucket `a/x`, the segment `a` leads from the root to the bucket `a`, the call
`Cd("x")` on it fails handing back `nil`, and `travel` along `a/x/b` returns
that `nil`, not the bucket `a` reached before the failure. -/
theorem travel_failure_bucket_counterexample :
    travel memBucket demoStore (some []) "a" = ⟨some ["a"], none, [Call.cd [] "a"]⟩ ∧
      memBucket.Cd demoStore ["a"] "x" = (none, some "bucket not found: x") ∧
      (travel memBucket demoStore (some []) "a/x/b").err = some "bucket not found: x" ∧
      ¬ (travel memBucket demoStore (some []) "a/x/b").bucket = some ["a"] := by
  decide

/-- The amended C3 at the path `a/x/b` of the store above. -/
theorem travel_stops_at_first_failure_witness :
    travel memBucket demoStore (some []) "a/x/b" =
      ⟨none, some "bucket not found: x", [Call.cd [] "a"] ++ [Call.cd ["a"] "x"]⟩ :=
  travel_stops_at_first_failure memBucket demoStore (some []) "a/x/b" ["a"] ["b"] "x" ["a"]
    [Call.cd [] "a"] none "bucket not found: x" (by decide) (by decide) (by decide) (by decide)
    (by decide) (by decide)

/-- C2 at the paths `k` and `a/k` of the store above. -/
theorem parseKeyPath_spec_witness :
    parseKeyPath memBucket demoStore (some []) "k" = ⟨some [], "k", none, []⟩ ∧
      parseKeyPath memBucket demoStore (some []) ("a" ++ "/" ++ "k") =
        ⟨(travel memBucket demoStore (some []) "a").bucket, "k",
          (travel memBucket demoStore (some []) "a").err,
          (travel memBucket demoStore (some []) "a").calls⟩ ∧
      (∃ d k : String, "a/k" = d ++ "/" ++ k ∧ '/' ∉ k.data) :=
  ⟨(parseKeyPath_spec memBucket demoStore (some [])).1 "k" (by decide),
    (parseKeyPath_spec memBucket demoStore (some [])).2.1 "a" "k" (by decide),
    (parseKeyPath_spec memBucket demoStore (some [])).2.2 "a/k" (by decide)⟩

/-- C5 at the root of the store above, with three repetitions. -/
theorem travel_dotdot_at_root_witness :
    travel memBucket demoStore (some []) (stringsJoin (List.replicate 3 "..") "/") =
        ⟨some [], none, List.replicate 3 (Call.prev [])⟩ ∧
      ((travel memBucket demoStore (some []) (stringsJoin (List.replicate 3 "..") "/")).calls.filter
        Call.isCd).length = 0 :=
  travel_dotdot_at_root memBucket demoStore [] (by decide) 3 (by decide)

/-- C7 at the path `q/k` of the store above, which has no bucket `q`. -/
theorem putCmd_unresolved_dir_no_write_witness :
    putCmd memBucket trivialJson ["q" ++ "/" ++ "k", "v"] (memSession demoStore) =
        Except.ok { memSession demoStore with
          err := some "bucket not found: q",
          calls := (memSession demoStore).calls ++
            (travel memBucket (memSession demoStore).store (memSession demoStore).cwd "q").calls } ∧
      putCmd memBucket trivialJson ["q" ++ "/" ++ "k", "--json-patch", "[]"]
          (memSession demoStore) =
        Except.ok { memSession demoStore with
          err := some "bucket not found: q",
          calls := (memSession demoStore).calls ++
            (travel memBucket (memSession demoStore).store (memSession demoStore).cwd "q").calls } ∧
      putCmd memBucket trivialJson ["q" ++ "/" ++ "k", "--json", "/p", "1"]
          (memSession demoStore) =
        Except.ok { memSession demoStore with
          err := some "bucket not found: q",
          calls := (memSession demoStore).calls ++
            (travel memBucket (memSession demoStore).store (memSession demoStore).cwd "q").calls } :=
  ⟨(putCmd_unresolved_dir_no_write memBucket trivialJson (memSession demoStore) "q" "k"
      "bucket not found: q" (by decide) (by decide)).1 "v",
    (putCmd_unresolved_dir_no_write memBucket trivialJson (memSession demoStore) "q" "k"
      "bucket not found: q" (by decide) (by decide)).2.1 "[]",
    (putCmd_unresolved_dir_no_write memBucket trivialJson (memSession demoStore) "q" "k"
      "bucket not found: q" (by decide) (by decide)).2.2.1 "/p" "1"⟩

/-- C8 at the store above: `cd a` succeeds, `cd q` fails. -/
theorem cdCmd_rebinds_on_success_witness :
    cdCmd memBucket 0 ["q"] (memSession demoStore) =
        Except.ok { memSession demoStore with
          err := some "bucket not found: q",
          calls := (memSession demoStore).calls ++
            (travel memBucket (memSession demoStore).store (memSession demoStore).cwd "q").calls } ∧
      (∃ w1 : Session MemStore MemBucket,
        cdCmd memBucket 0 ["a"] (memSession demoStore) = Except.ok w1 ∧
          w1.cwd = (travel memBucket (memSession demoStore).store
            (memSession demoStore).cwd "a").bucket ∧
          w1.err = none ∧ w1.store = (memSession demoStore).store ∧
          w1.out = (memSession demoStore).out) :=
  ⟨(cdCmd_rebinds_on_success memBucket 0 (memSession demoStore) "q").1 "bucket not found: q"
      (by decide),
    (cdCmd_rebinds_on_success memBucket 0 (memSession demoStore) "a").2
      (by decide) (Or.inl (by decide))⟩

/-- The round trip at the root of the empty store, with key `k` and value
`bar`. -/
theorem putCmd_getCmd_roundtrip_plain_value_witness :
    ∃ w1 w2 : Session MemStore MemBucket,
      putCmd memBucket trivialJson ["k", "bar"] (memSession []) = Except.ok w1 ∧
      w1.err = none ∧
      getCmd memBucket trivialJson ["k"] w1 = Except.ok w2 ∧ w2.err = none ∧
      w2.out = (memSession []).out ++ [println "bar"] :=
  putCmd_getCmd_roundtrip_plain_value memBucket trivialJson (memSession []) [] "k" "bar"
    (by decide) (by decide) (by decide) rfl rfl rfl

/-- C10 at the paths `/a/./k` and `a//k/` of the store above. -/
theorem travel_meaningful_segments_witness :
    travel memBucket demoStore (some []) "/a/./k" = travel memBucket demoStore (some []) "a//k/" :=
  (travel_meaningful_segments memBucket demoStore (some [])).1 "/a/./k" "a//k/" (by decide)

/-- C9 in interactive mode at the root of a store one of whose three names
holds a tab. -/
theorem lsCmd_prints_printable_witness :
    lsCmd notTab memBucket [] { memSession tabStore with mode := some Interactive } =
      Except.ok { memSession tabStore with
        mode := some Interactive,
        out := ["a\n", "k\n", "3 keys in bucket (1 omitted in this list)\n"],
        calls := [Call.list []] } :=
  (lsCmd_prints_printable memBucket notTab { memSession tabStore with mode := some Interactive }
    [] [] [] (Or.inl ⟨rfl, rfl, rfl⟩)).1

end Thunder
